import Mathlib

/-!
Verification of the audio-fingerprinting and real-time matching engine of
the Multimedia_IR repository.

The repository ships its algorithm documentation (Shazam-style
constellation fingerprinting, inverted hash index, offset-histogram
scoring) together with the browser-side capture code
(`app/components/AudioRecorder.tsx`, `public/audio-processor.js`).  The
backend engine files (`backend/app/fingerprint.py`, `backend/app/database.py`,
`backend/app/websocket.py`) are referenced by the documentation but are not
part of the source tree; where a definition below models one of those
missing files it says so explicitly, following the wording of the specification
and the parameter tables of the algorithm documents in the repository.
-/

namespace MultimediaIR

/-! ## Fingerprint hasher -/

/-- Modelled from the spec: algorithm parameter `SAMPLE_RATE = 8000` of the
missing `backend/app/fingerprint.py`, as listed in the algorithm
document of the repository ("8000 Hz sample rate as per paper"). -/
def SAMPLE_RATE : Nat := 8000

/-- Modelled from the spec: target-zone parameter `MIN_TIME_DELTA = 0`. -/
def MIN_TIME_DELTA : Nat := 0

/-- Modelled from the spec: target-zone parameter `MAX_TIME_DELTA = 200`. -/
def MAX_TIME_DELTA : Nat := 200

/-- Modelled from the spec: target-zone parameter `FREQ_WINDOW = 100` bins. -/
def FREQ_WINDOW : Nat := 100

/-- Modelled from the spec: fan-out parameter `FAN_VALUE = 5` pairs per anchor. -/
def FAN_VALUE : Nat := 5

/-- Modelled from the spec: a spectral peak (time frame index, frequency bin
index, magnitude in dB) as produced by the constellation extractor of the
missing `backend/app/fingerprint.py`. -/
structure PeakPoint where
  time_bin : Nat
  freq_bin : Nat
  magnitude : Int
  deriving DecidableEq, Repr

/-- Absolute distance between two frequency bins. -/
def freqDist (a t : PeakPoint) : Nat :=
  max a.freq_bin t.freq_bin - min a.freq_bin t.freq_bin

/-- Modelled from the spec: the target-zone test of the missing
`backend/app/fingerprint.py`: a later peak `t` is a valid target for anchor
`a` when its time delta lies in `[MIN_TIME_DELTA, MAX_TIME_DELTA]`, its
frequency is within `FREQ_WINDOW` bins of the anchor, and both frequency
bins fit the 10-bit hash field (fields that would overflow their bit width
are rejected, per the spec). -/
def inTargetZone (a t : PeakPoint) : Prop :=
  a.time_bin ≤ t.time_bin ∧
  MIN_TIME_DELTA ≤ t.time_bin - a.time_bin ∧
  t.time_bin - a.time_bin ≤ MAX_TIME_DELTA ∧
  freqDist a t ≤ FREQ_WINDOW ∧
  a.freq_bin < 1024 ∧ t.freq_bin < 1024

instance (a t : PeakPoint) : Decidable (inTargetZone a t) := by
  unfold inTargetZone; infer_instance

/-- Modelled from the spec: the 32-bit hash layout of the missing
`backend/app/fingerprint.py`, as documented in the architecture document:
10 bits anchor frequency, then 10 bits target frequency, then 12 bits time
delta. -/
def packHash (freq_anchor freq_target time_delta : Nat) : Nat :=
  freq_anchor * 4194304 + freq_target * 4096 + time_delta

/-- The hash of an anchor/target peak pair: pack the two frequency bins and
the relative time delta. -/
def hashOf (a t : PeakPoint) : Nat :=
  packHash a.freq_bin t.freq_bin (t.time_bin - a.time_bin)

/-- Modelled from the spec: the up-to-`FAN_VALUE` targets paired with an
anchor, taken in order of time proximity (the peak list is ordered by
time, so the first qualifying peaks are the closest). -/
def targetsFor (a : PeakPoint) (rest : List PeakPoint) : List PeakPoint :=
  (rest.filter (fun t => decide (inTargetZone a t))).take FAN_VALUE

/-- Modelled from the spec: hash generation of the missing
`backend/app/fingerprint.py`: every peak acts as an anchor for the peaks
after it, and each accepted pair yields `(hash, anchor_time)`. -/
def genHashes : List PeakPoint → List (Nat × Nat)
  | [] => []
  | a :: rest => (targetsFor a rest).map (fun t => (hashOf a t, a.time_bin)) ++ genHashes rest

/-- The hashes of a peak list, without the anchor times. -/
def hashList (peaks : List PeakPoint) : List Nat :=
  (genHashes peaks).map Prod.fst

/-- Translating a peak forward in time by `d` frames, as happens to every
peak of a clip when the clip starts `d` frames later inside a larger
recording. -/
def shiftPeak (d : Nat) (p : PeakPoint) : PeakPoint :=
  { p with time_bin := p.time_bin + d }

theorem inTargetZone_shift (d : Nat) (a t : PeakPoint) :
    inTargetZone (shiftPeak d a) (shiftPeak d t) ↔ inTargetZone a t := by
  simp only [inTargetZone, shiftPeak, freqDist]
  omega

theorem hashOf_shift (d : Nat) (a t : PeakPoint) :
    hashOf (shiftPeak d a) (shiftPeak d t) = hashOf a t := by
  simp [hashOf, shiftPeak, Nat.add_sub_add_right]

theorem targetsFor_shift (d : Nat) (a : PeakPoint) (rest : List PeakPoint) :
    targetsFor (shiftPeak d a) (rest.map (shiftPeak d)) =
      (targetsFor a rest).map (shiftPeak d) := by
  unfold targetsFor
  have hp : (fun t => decide (inTargetZone (shiftPeak d a) t)) ∘ shiftPeak d
      = fun t => decide (inTargetZone a t) := by
    funext t
    simp [Function.comp, inTargetZone_shift]
  rw [List.filter_map, hp, List.map_take]

theorem genHashes_shift (d : Nat) (peaks : List PeakPoint) :
    hashList (peaks.map (shiftPeak d)) = hashList peaks := by
  induction peaks with
  | nil => rfl
  | cons a rest ih =>
      simp only [List.map_cons, hashList, genHashes, List.map_append] at *
      rw [targetsFor_shift]
      simp only [List.map_map]
      rw [ih]
      congr 1
      apply List.map_congr_left
      intro t _
      simp [Function.comp, hashOf_shift]

/-- C1.  Time-shift invariance of fingerprinting: translating every peak of
a clip forward by any number `d` of frames — which is what starting the
same acoustic clip at a different absolute offset inside a larger
recording does to its constellation map — produces exactly the same list
of packed `(freq_anchor, freq_target, time_delta)` hashes, because each
hash encodes only the relative delta, never absolute time. -/
theorem fingerprint_time_shift_invariant (d : Nat) (peaks : List PeakPoint) :
    hashList (peaks.map (shiftPeak d)) = hashList peaks :=
  genHashes_shift d peaks

/-- C4.  Injectivity of the 32-bit hash packing on its in-range domain:
for fields that fit their bit widths (10-bit anchor frequency, 10-bit
target frequency, 12-bit time delta), two packed hashes are equal iff all
three fields are pairwise equal. -/
theorem packHash_injective_in_range
    (fa ft dt fa2 ft2 dt2 : Nat)
    (ha : fa < 1024) (ht : ft < 1024) (hd : dt < 4096)
    (ha2 : fa2 < 1024) (ht2 : ft2 < 1024) (hd2 : dt2 < 4096) :
    packHash fa ft dt = packHash fa2 ft2 dt2 ↔ (fa = fa2 ∧ ft = ft2 ∧ dt = dt2) := by
  unfold packHash
  omega

/-- Witness for C4: evaluated at the concrete in-range field values
`(3, 5, 7)` and `(3, 5, 8)`, the packed hashes differ. -/
theorem packHash_injective_in_range_witness :
    packHash 3 5 7 ≠ packHash 3 5 8 := by
  intro h
  have h2 := (packHash_injective_in_range 3 5 7 3 5 8
    (by decide) (by decide) (by decide) (by decide) (by decide) (by decide)).mp h
  exact absurd h2.2.2 (by decide)

/-! ## Fingerprint index -/

/-- Modelled from the spec: an index entry `(track_id, absolute_time_bin)`
of the missing `backend/app/database.py`. -/
structure IndexEntry where
  track_id : String
  time_bin : Nat
  deriving DecidableEq, Repr

/-- Modelled from the spec: the fingerprint index of the missing
`backend/app/database.py`, an inverted map from 32-bit hash to the entries
filed under it, represented by its rows `(hash, entry)` in insertion
order; the bucket of a hash is the subsequence of rows carrying it. -/
abbrev FingerprintIndex : Type := List (Nat × IndexEntry)

/-- Modelled from the spec: `lookup(hash)` returns the entries filed under
the hash, in insertion order, and the empty sequence for an unknown hash. -/
def lookup (idx : FingerprintIndex) (h : Nat) : List IndexEntry :=
  (idx.filter (fun r => r.fst == h)).map Prod.snd

/-- Modelled from the spec: `remove_track(track_id)` bulk-deletes every
entry for that id across all hash buckets. -/
def remove_track (tid : String) (idx : FingerprintIndex) : FingerprintIndex :=
  idx.filter (fun r => !(r.snd.track_id == tid))

/-- The rows appended when ingesting `hashes_with_times` for a track. -/
def ingestRows (tid : String) (hs : List (Nat × Nat)) : FingerprintIndex :=
  hs.map (fun p => (p.fst, { track_id := tid, time_bin := p.snd }))

/-- Modelled from the spec: `ingest(track_id, hashes_with_times)` first
removes all prior entries for the track, then appends one
`IndexEntry(track_id, local_time)` under each hash. -/
def ingest (tid : String) (hs : List (Nat × Nat)) (idx : FingerprintIndex) :
    FingerprintIndex :=
  remove_track tid idx ++ ingestRows tid hs

/-- An index operation, used to speak about arbitrary later activity on
the index: ingesting some track or removing some track. -/
inductive IndexOp where
  | ingestOp (tid : String) (hs : List (Nat × Nat))
  | removeOp (tid : String)

/-- Apply one index operation. -/
def applyOp (op : IndexOp) (idx : FingerprintIndex) : FingerprintIndex :=
  match op with
  | .ingestOp t hs => ingest t hs idx
  | .removeOp t => remove_track t idx

/-- Apply a sequence of index operations, oldest first. -/
def applyOps (ops : List IndexOp) (idx : FingerprintIndex) : FingerprintIndex :=
  ops.foldl (fun i op => applyOp op i) idx

/-- Does this operation re-ingest the given track id? -/
def reingests (op : IndexOp) (tid : String) : Bool :=
  match op with
  | .ingestOp t _ => t == tid
  | .removeOp _ => false

/-- No row of the index carries the given track id. -/
def trackAbsent (tid : String) (idx : FingerprintIndex) : Prop :=
  ∀ r ∈ idx, r.snd.track_id ≠ tid

theorem trackAbsent_remove_track (tid : String) (idx : FingerprintIndex) :
    trackAbsent tid (remove_track tid idx) := by
  intro r hr
  have := List.of_mem_filter hr
  simpa using this

theorem trackAbsent_filter (tid : String) (p : Nat × IndexEntry → Bool)
    (idx : FingerprintIndex) (h : trackAbsent tid idx) :
    trackAbsent tid (idx.filter p) := by
  intro r hr
  exact h r (List.mem_of_mem_filter hr)

theorem trackAbsent_applyOp (tid : String) (op : IndexOp) (idx : FingerprintIndex)
    (habs : trackAbsent tid idx) (hop : reingests op tid = false) :
    trackAbsent tid (applyOp op idx) := by
  cases op with
  | removeOp t =>
      exact trackAbsent_filter tid _ idx habs
  | ingestOp t hs =>
      intro r hr
      simp only [applyOp, ingest, List.mem_append] at hr
      rcases hr with hr | hr
      · exact trackAbsent_filter tid _ idx habs r hr
      · simp only [ingestRows, List.mem_map] at hr
        obtain ⟨p, _, rfl⟩ := hr
        simp only [reingests, beq_iff_eq] at hop
        simpa using hop

theorem trackAbsent_applyOps (tid : String) (ops : List IndexOp)
    (idx : FingerprintIndex) (habs : trackAbsent tid idx)
    (hops : ∀ op ∈ ops, reingests op tid = false) :
    trackAbsent tid (applyOps ops idx) := by
  induction ops generalizing idx with
  | nil => exact habs
  | cons op rest ih =>
      exact ih (applyOp op idx)
        (trackAbsent_applyOp tid op idx habs (hops op (by simp)))
        (fun o ho => hops o (by simp [ho]))

theorem lookup_of_trackAbsent (tid : String) (idx : FingerprintIndex)
    (habs : trackAbsent tid idx) (h : Nat) (e : IndexEntry)
    (he : e ∈ lookup idx h) : e.track_id ≠ tid := by
  simp only [lookup, List.mem_map] at he
  obtain ⟨r, hr, rfl⟩ := he
  exact habs r (List.mem_of_mem_filter hr)

/-- C2.  Deletion invariant: after `remove_track T`, and after any further
sequence of operations none of which re-ingests `T`, no `lookup` on any
hash returns an entry whose `track_id` is `T`. -/
theorem remove_track_deletion_invariant (idx : FingerprintIndex) (tid : String)
    (ops : List IndexOp) (h : Nat) (e : IndexEntry)
    (hops : ∀ op ∈ ops, reingests op tid = false)
    (he : e ∈ lookup (applyOps ops (remove_track tid idx)) h) :
    e.track_id ≠ tid :=
  lookup_of_trackAbsent tid _
    (trackAbsent_applyOps tid ops _ (trackAbsent_remove_track tid idx) hops) h e he

/-- Witness for C2: in a concrete index holding entries for tracks "A" and
"B", after removing "A" and then ingesting a third track "C", the entry returned
by looking up hash 1 does not belong to "A". -/
theorem remove_track_deletion_invariant_witness :
    IndexEntry.track_id { track_id := "B", time_bin := 3 } ≠ "A" :=
  remove_track_deletion_invariant
    [(1, { track_id := "A", time_bin := 0 }), (1, { track_id := "B", time_bin := 3 })]
    "A" [.ingestOp "C" [(2, 7)]] 1 { track_id := "B", time_bin := 3 }
    (by decide) (by decide)

theorem remove_track_ingestRows (tid : String) (hs : List (Nat × Nat)) :
    remove_track tid (ingestRows tid hs) = [] := by
  induction hs with
  | nil => rfl
  | cons p rest ih =>
      simp only [ingestRows, List.map_cons, remove_track, List.filter_cons] at *
      simpa using ih

theorem remove_track_idem (tid : String) (idx : FingerprintIndex) :
    remove_track tid (remove_track tid idx) = remove_track tid idx := by
  unfold remove_track
  rw [List.filter_filter]
  apply List.filter_congr
  intro r _
  cases h : r.snd.track_id == tid <;> simp [h]

theorem ingest_ingest (tid : String) (hs : List (Nat × Nat))
    (idx : FingerprintIndex) :
    ingest tid hs (ingest tid hs idx) = ingest tid hs idx := by
  unfold ingest
  rw [remove_track, List.filter_append, ← remove_track, ← remove_track,
    remove_track_ingestRows, remove_track_idem, List.append_nil]

/-- C3.  Idempotent re-ingestion: ingesting the same track id with the same
hashes twice leaves the index in the same observable state as ingesting it
once — every lookup returns the same entries — because re-ingestion first
removes all prior entries for that track id before appending. -/
theorem ingest_idempotent (tid : String) (hs : List (Nat × Nat))
    (idx : FingerprintIndex) (h : Nat) :
    lookup (ingest tid hs (ingest tid hs idx)) h = lookup (ingest tid hs idx) h := by
  rw [ingest_ingest]

/-! ## Match scorer -/

/-- Modelled from the spec: matching parameter `MIN_MATCH_THRESHOLD = 5`
(minimum aligned hashes) of the missing `backend/app/database.py`. -/
def MIN_MATCH_THRESHOLD : Nat := 5

/-- Modelled from the spec: matching parameter `CLUSTER_TOLERANCE = 2`
(frames tolerance for offset clustering) of the missing
`backend/app/database.py`. -/
def CLUSTER_TOLERANCE : Int := 2

/-- Modelled from the spec: a per-window match candidate
`(track_id, offset, support_count)`. -/
structure MatchCandidate where
  track_id : String
  offset : Int
  support_count : Nat
  deriving DecidableEq, Repr

/-- Modelled from the spec: the offset bucket of a raw offset, merging
offsets within the cluster tolerance into one histogram bucket. -/
def bucketOf (o : Int) : Int := o / CLUSTER_TOLERANCE

/-- Modelled from the spec: the `(track_id, offset-bucket)` key contributed
by every index entry found for every query hash; `offset` is
`entry.absolute_time_bin - query_time`.  One key occurrence per aligned
hash, so the histogram count of a key is its support count. -/
def offsetKeys (idx : FingerprintIndex) (q : List (Nat × Nat)) :
    List (String × Int) :=
  q.flatMap (fun p => (lookup idx p.fst).map
    (fun e => (e.track_id, bucketOf ((e.time_bin : Int) - (p.snd : Int)))))

/-- The maximum support count over all `(track_id, offset-bucket)`
candidates of one analysis window. -/
def maxSupport (idx : FingerprintIndex) (q : List (Nat × Nat)) : Nat :=
  ((offsetKeys idx q).map (fun k => (offsetKeys idx q).count k)).foldr max 0

/-- Modelled from the spec: the match scorer of the missing
`backend/app/database.py`: pick the `(track_id, offset-bucket)` key with
the highest histogram count and return it as a `MatchCandidate` when its
support count meets `MIN_MATCH_THRESHOLD`, otherwise report no match. -/
def match_scorer (idx : FingerprintIndex) (q : List (Nat × Nat)) :
    Option MatchCandidate :=
  match (offsetKeys idx q).argmax (fun k => (offsetKeys idx q).count k) with
  | none => none
  | some k =>
      if MIN_MATCH_THRESHOLD ≤ (offsetKeys idx q).count k then
        some { track_id := k.fst, offset := k.snd,
               support_count := (offsetKeys idx q).count k }
      else none

theorem le_foldr_max (l : List Nat) (a : Nat) (h : a ∈ l) :
    a ≤ l.foldr max 0 := by
  induction l with
  | nil => cases h
  | cons b rest ih =>
      rcases List.mem_cons.mp h with rfl | h2
      · exact le_max_left _ _
      · exact le_trans (ih h2) (le_max_right _ _)

theorem foldr_max_le (l : List Nat) (b : Nat) (h : ∀ a ∈ l, a ≤ b) :
    l.foldr max 0 ≤ b := by
  induction l with
  | nil => exact Nat.zero_le b
  | cons c rest ih =>
      exact max_le (h c (by simp)) (ih (fun a ha => h a (by simp [ha])))

theorem argmax_count_eq_maxSupport (idx : FingerprintIndex)
    (q : List (Nat × Nat)) (m : String × Int)
    (hm : (offsetKeys idx q).argmax (fun k => (offsetKeys idx q).count k) = some m) :
    (offsetKeys idx q).count m = maxSupport idx q := by
  have hmem : m ∈ offsetKeys idx q :=
    List.argmax_mem (Option.mem_def.mpr hm)
  apply le_antisymm
  · exact le_foldr_max _ _ (List.mem_map_of_mem _ hmem)
  · apply foldr_max_le
    intro a ha
    obtain ⟨k, hk, rfl⟩ := List.mem_map.mp ha
    exact List.le_of_mem_argmax hk (Option.mem_def.mpr hm)

theorem scorer_support_spec (idx : FingerprintIndex) (q : List (Nat × Nat)) :
    (match_scorer idx q).map MatchCandidate.support_count =
      (if MIN_MATCH_THRESHOLD ≤ maxSupport idx q then some (maxSupport idx q)
       else none) := by
  unfold match_scorer
  cases harg : (offsetKeys idx q).argmax (fun k => (offsetKeys idx q).count k) with
  | none =>
      have hnil : offsetKeys idx q = [] := List.argmax_eq_none.mp harg
      simp [maxSupport, hnil, MIN_MATCH_THRESHOLD]
  | some m =>
      have hms := argmax_count_eq_maxSupport idx q m harg
      dsimp only
      rw [hms]
      by_cases hth : MIN_MATCH_THRESHOLD ≤ maxSupport idx q
      · simp [hth]
      · simp [hth]

/-- C5.  Match-threshold gating: the scorer returns a `MatchCandidate` if
and only if the maximum `(track_id, offset-bucket)` support count of the
window reaches `MIN_MATCH_THRESHOLD` (5), in which case the candidate
carries exactly that maximal support count; below the threshold the
scorer returns the no-match result. -/
theorem match_scorer_threshold_gate (idx : FingerprintIndex)
    (q : List (Nat × Nat)) :
    (match_scorer idx q).map MatchCandidate.support_count =
      (if MIN_MATCH_THRESHOLD ≤ maxSupport idx q then some (maxSupport idx q)
       else none) :=
  scorer_support_spec idx q

/-! ## Live capture and transport-layer result objects -/

/-- From `app/components/AudioRecorder.tsx`: the capture context is created
as a `new AudioContext` with `sampleRate: 8000`, so the live query path
delivers audio at this rate. -/
def audioContextSampleRate : Nat := 8000

/-- C6.  Consistent fixed working sample rate: the live-capture query path
samples audio at exactly the fixed working rate of the engine, 8000 Hz, so
query and reference analysis use one consistent parameter set. -/
theorem sample_rate_consistent :
    audioContextSampleRate = SAMPLE_RATE ∧ SAMPLE_RATE = 8000 :=
  ⟨rfl, rfl⟩

/-- From `app/components/AudioRecorder.tsx` (the `MatchResult` interface):
the result object consumed by the transport layer.  The source field
`match` is rendered here as `is_match` because `match` is a reserved word
in Lean; `song_id`, `confidence`, `offset`, `confirmed` and `message` are
the optional fields of the interface. -/
structure MatchResult where
  is_match : Bool
  song_id : Option String
  confidence : Option Nat
  offset : Option Int
  confirmed : Option Bool
  message : Option String
  deriving DecidableEq, Repr

/-- From `app/components/AudioRecorder.tsx`: the field names of the
`MatchResult` interface, in declaration order. -/
def matchResultFields : List String :=
  ["match", "song_id", "confidence", "offset", "confirmed", "message"]

/-- The field names the specification prescribes for a match result
object (spec wording, for comparison with `matchResultFields`). -/
def specifiedResultFields : List String :=
  ["match", "track_id", "confidence", "offset", "confirmed"]

/-- Modelled from the spec: `poll_result` of the missing
`backend/app/websocket.py` — after an analysis tick it relays either the
no-match object or a match object built from the winning candidate, whose
`confidence` is the support count of the candidate and whose `offset` is the
winning offset. -/
def pollResult (res : Option MatchCandidate) (confirmed : Bool) : MatchResult :=
  match res with
  | none =>
      { is_match := false, song_id := none, confidence := none,
        offset := none, confirmed := none, message := none }
  | some c =>
      { is_match := true, song_id := some c.track_id,
        confidence := some c.support_count, offset := some c.offset,
        confirmed := some confirmed, message := none }

/-- Counterexample for C7: the result object carries no field named
`track_id` — the code names the field `song_id` — and it carries a sixth
field `message` that the claim excludes, so the claimed field list differs
from the one in the code. -/
theorem matchResultFields_ne_specified :
    "track_id" ∉ matchResultFields ∧ "message" ∈ matchResultFields ∧
      matchResultFields ≠ specifiedResultFields := by
  refine ⟨?_, ?_, ?_⟩ <;> decide

theorem pollResult_confidence (res : Option MatchCandidate) (confirmed : Bool) :
    (pollResult res confirmed).confidence = res.map MatchCandidate.support_count := by
  cases res <;> rfl

/-- C7 (amended).  Result-object shape: every result delivered after an
analysis tick is the no-match object or a match object with fields
`match`, `song_id`, `confidence`, `offset`, `confirmed` and an optional
`message` (the track field is named `song_id`, not `track_id`);
`confidence` equals the winning support count from the Match Scorer —
i.e. the maximal support of the window when it meets the threshold — and
`offset` is the winning time offset. -/
theorem poll_result_shape (idx : FingerprintIndex) (q : List (Nat × Nat))
    (confirmed : Bool) :
    (pollResult (match_scorer idx q) confirmed).is_match = (match_scorer idx q).isSome ∧
    (pollResult (match_scorer idx q) confirmed).confidence =
      (if MIN_MATCH_THRESHOLD ≤ maxSupport idx q then some (maxSupport idx q)
       else none) ∧
    (pollResult (match_scorer idx q) confirmed).offset =
      (match_scorer idx q).map MatchCandidate.offset ∧
    matchResultFields =
      ["match", "song_id", "confidence", "offset", "confirmed", "message"] := by
  refine ⟨?_, ?_, ?_, rfl⟩
  · cases match_scorer idx q <;> rfl
  · rw [pollResult_confidence, scorer_support_spec]
  · cases match_scorer idx q <;> rfl

/-! ## Client session state machine -/

/-- From `app/components/AudioRecorder.tsx`: the client-side session state —
the recording and listening flags, the status text, the websocket, and the
last displayed match. -/
structure ClientState where
  isRecording : Bool
  isListening : Bool
  socketOpen : Bool
  status : String
  lastMatch : Option MatchResult
  deriving DecidableEq, Repr

/-- From `app/components/AudioRecorder.tsx` (`stopRecording`): closes the
socket, stops the stream, and clears the recording flags and status. -/
def stopRecordingClient (s : ClientState) : ClientState :=
  { s with socketOpen := false, isRecording := false, isListening := false,
           status := "" }

/-- From `app/components/AudioRecorder.tsx` (`ws.onmessage`): a received
result with `match: true` is displayed and sets the confirmed or analyzing
status; a no-match result only sets the listening status.  Neither branch
stops the recording or closes the socket. -/
def handleMessage (r : MatchResult) (s : ClientState) : ClientState :=
  if r.is_match then
    { s with lastMatch := some r,
             status := if r.confirmed = some true then "Match Confirmed"
                       else "Analyzing..." }
  else
    { s with status := "Listening..." }

/-- From `app/components/AudioRecorder.tsx` (`ws.onerror`): the error path
sets an error status and stops the recording session. -/
def handleError (s : ClientState) : ClientState :=
  stopRecordingClient { s with status := "Connection Error" }

/-- C8.  No-match is a normal, non-error outcome: a no-match result is
consumed by the ordinary message handler — which is total on result
values, so no exception and no error path is involved — and it leaves the
session open and listening: the recording, listening, and socket state are
unchanged, the displayed match is unchanged, and the status returns to
listening. -/
theorem no_match_keeps_session (s : ClientState) (r : MatchResult)
    (h : r.is_match = false) :
    handleMessage r s = { s with status := "Listening..." } := by
  unfold handleMessage
  rw [h]
  simp

/-- Witness for C8: the concrete no-match result delivered to a live
session leaves it recording with the listening status. -/
theorem no_match_keeps_session_witness :
    handleMessage (pollResult none false)
        { isRecording := true, isListening := true, socketOpen := true,
          status := "Analyzing...", lastMatch := none } =
      { isRecording := true, isListening := true, socketOpen := true,
        status := "Listening...", lastMatch := none } :=
  no_match_keeps_session
    { isRecording := true, isListening := true, socketOpen := true,
      status := "Analyzing...", lastMatch := none }
    (pollResult none false) rfl

/-! ## Audio worklet (`public/audio-processor.js`) -/

/-- From `public/audio-processor.js`: the fixed chunk capacity of the
worklet buffer, `new Int16Array(4096)`. -/
def CHUNK_SIZE : Nat := 4096

/-- From `public/audio-processor.js`: `Math.max(-1, Math.min(1, v))`,
clamping an input sample to the unit interval.  Float32 samples are
modelled as rationals. -/
def clampUnit (x : ℚ) : ℚ := max (-1) (min 1 x)

/-- Truncation toward zero, as performed by the JavaScript Int16Array
store on an in-range number. -/
def truncTowardZero (q : ℚ) : Int := if q < 0 then -Int.floor (-q) else Int.floor q

/-- From `public/audio-processor.js`: the Float32-to-Int16 conversion —
clamp to the unit interval, then scale negative values by 32768 (0x8000)
and non-negative values by 32767 (0x7FFF), and store as a 16-bit
integer. -/
def convertSample (x : ℚ) : Int :=
  if clampUnit x < 0 then truncTowardZero (clampUnit x * 32768)
  else truncTowardZero (clampUnit x * 32767)

theorem clampUnit_mem (x : ℚ) : -1 ≤ clampUnit x ∧ clampUnit x ≤ 1 :=
  ⟨le_max_left _ _, max_le (by norm_num) (min_le_left _ _)⟩

theorem convertSample_range (x : ℚ) :
    -32768 ≤ convertSample x ∧ convertSample x ≤ 32767 := by
  obtain ⟨hlo, hhi⟩ := clampUnit_mem x
  unfold convertSample truncTowardZero
  by_cases hneg : clampUnit x < 0
  · have hq : clampUnit x * 32768 < 0 := by nlinarith
    rw [if_pos hneg, if_pos hq]
    have hub : -(clampUnit x * 32768) ≤ 32768 := by nlinarith
    have h0 : (0 : ℚ) ≤ -(clampUnit x * 32768) := by nlinarith
    constructor
    · have hf : (Int.floor (-(clampUnit x * 32768)) : ℚ) ≤ 32768 :=
        le_trans (Int.floor_le _) hub
      have hf2 : Int.floor (-(clampUnit x * 32768)) ≤ 32768 := by exact_mod_cast hf
      omega
    · have hf : (0 : Int) ≤ Int.floor (-(clampUnit x * 32768)) :=
        Int.le_floor.mpr (by exact_mod_cast h0)
      omega
  · have hge : (0 : ℚ) ≤ clampUnit x := le_of_not_lt hneg
    have hq : ¬ clampUnit x * 32767 < 0 := by nlinarith
    rw [if_neg hneg, if_neg hq]
    have hub : clampUnit x * 32767 ≤ 32767 := by nlinarith
    constructor
    · have hf : (0 : Int) ≤ Int.floor (clampUnit x * 32767) :=
        Int.le_floor.mpr (by exact_mod_cast (by nlinarith : (0:ℚ) ≤ clampUnit x * 32767))
      omega
    · have hf : (Int.floor (clampUnit x * 32767) : ℚ) ≤ 32767 :=
        le_trans (Int.floor_le _) hub
      exact_mod_cast hf

/-- C10.  PCM conversion range safety: for every input sample, the
clamp-then-scale conversion emits a value inside the Int16 range
`[-32768, 32767]` — so no wrap-around can occur in the Int16Array store —
with `-1` mapping exactly to `-32768` and `1` mapping exactly to
`32767`. -/
theorem pcm_conversion_range (x : ℚ) :
    (-32768 ≤ convertSample x ∧ convertSample x ≤ 32767) ∧
    convertSample (-1) = -32768 ∧ convertSample 1 = 32767 := by
  refine ⟨convertSample_range x, ?_, ?_⟩
  · norm_num [convertSample, clampUnit, truncTowardZero]
  · norm_num [convertSample, clampUnit, truncTowardZero]

/-- From `public/audio-processor.js`: the worklet state — the fixed
Int16 buffer, the write index, and the chunks already posted to the main
thread (oldest first). -/
structure WorkletState where
  buffer : List Int
  bufferIndex : Nat
  posted : List (List Int)

/-- From `public/audio-processor.js` (constructor): a zeroed 4096-sample
buffer, write index 0, nothing posted yet. -/
def initWorkletState : WorkletState :=
  { buffer := List.replicate CHUNK_SIZE 0, bufferIndex := 0, posted := [] }

/-- From `public/audio-processor.js` (`process`): convert each incoming
sample, store it at the write index, and when the index reaches the
buffer length post a copy of the full buffer and reset the index. -/
def processSamples : List ℚ → WorkletState → WorkletState
  | [], st => st
  | x :: xs, st =>
      let buf := st.buffer.set st.bufferIndex (convertSample x)
      if st.bufferIndex + 1 = buf.length then
        processSamples xs
          { buffer := buf, bufferIndex := 0, posted := st.posted ++ [buf] }
      else
        processSamples xs
          { buffer := buf, bufferIndex := st.bufferIndex + 1, posted := st.posted }

/-- A sequence of input blocks handed to `process` one after the other. -/
def processBlocks (blocks : List (List ℚ)) (st : WorkletState) : WorkletState :=
  blocks.foldl (fun s b => processSamples b s) st

/-- The worklet invariant: full fixed-capacity buffer of in-range 16-bit
values, in-range write index, and only full in-range chunks posted. -/
def WorkletInv (st : WorkletState) : Prop :=
  st.buffer.length = CHUNK_SIZE ∧
  st.bufferIndex < CHUNK_SIZE ∧
  (∀ v ∈ st.buffer, -32768 ≤ v ∧ v ≤ 32767) ∧
  ∀ c ∈ st.posted, c.length = CHUNK_SIZE ∧ ∀ v ∈ c, -32768 ≤ v ∧ v ≤ 32767

theorem workletInv_init : WorkletInv initWorkletState := by
  refine ⟨by simp [initWorkletState], ?_, ?_, ?_⟩
  · show (0 : Nat) < CHUNK_SIZE
    norm_num [CHUNK_SIZE]
  · intro v hv
    have := List.eq_of_mem_replicate hv
    subst this
    constructor <;> norm_num
  · intro c hc
    simp [initWorkletState] at hc

theorem workletInv_set (st : WorkletState) (x : ℚ) (h : WorkletInv st)
    (v : Int) (hv : v ∈ st.buffer.set st.bufferIndex (convertSample x)) :
    -32768 ≤ v ∧ v ≤ 32767 := by
  rcases List.mem_or_eq_of_mem_set hv with hmem | rfl
  · exact h.2.2.1 v hmem
  · exact convertSample_range x

theorem workletInv_processSamples (xs : List ℚ) (st : WorkletState)
    (h : WorkletInv st) : WorkletInv (processSamples xs st) := by
  induction xs generalizing st with
  | nil => exact h
  | cons x rest ih =>
      obtain ⟨hlen, hidx, hbuf, hposted⟩ := h
      simp only [processSamples]
      have hlen2 : (st.buffer.set st.bufferIndex (convertSample x)).length
          = CHUNK_SIZE := by simp [hlen]
      by_cases hfull : st.bufferIndex + 1
          = (st.buffer.set st.bufferIndex (convertSample x)).length
      · rw [if_pos hfull]
        apply ih
        refine ⟨hlen2, ?_, ?_, ?_⟩
        · show (0 : Nat) < CHUNK_SIZE
          norm_num [CHUNK_SIZE]
        · exact workletInv_set st x ⟨hlen, hidx, hbuf, hposted⟩
        · intro c hc
          rcases List.mem_append.mp hc with hc | hc
          · exact hposted c hc
          · rcases List.mem_singleton.mp hc with rfl
            exact ⟨hlen2, workletInv_set st x ⟨hlen, hidx, hbuf, hposted⟩⟩
      · rw [if_neg hfull]
        apply ih
        refine ⟨hlen2, ?_, ?_, hposted⟩
        · show st.bufferIndex + 1 < CHUNK_SIZE
          rw [hlen2] at hfull
          omega
        · exact workletInv_set st x ⟨hlen, hidx, hbuf, hposted⟩

theorem workletInv_processBlocks (blocks : List (List ℚ)) (st : WorkletState)
    (h : WorkletInv st) : WorkletInv (processBlocks blocks st) := by
  induction blocks generalizing st with
  | nil => exact h
  | cons b rest ih =>
      exact ih (processSamples b st) (workletInv_processSamples b st h)

/-- C9.  AudioProcessor worklet buffer invariant: after processing any
sequence of input blocks from the initial state, the write index lies in
`[0, 4096)`, the buffer still holds exactly its fixed capacity of 4096
samples, and every chunk posted to the main thread contains exactly 4096
in-range 16-bit samples. -/
theorem worklet_buffer_invariant (blocks : List (List ℚ)) :
    (processBlocks blocks initWorkletState).buffer.length = CHUNK_SIZE ∧
    (processBlocks blocks initWorkletState).bufferIndex < CHUNK_SIZE ∧
    ∀ c ∈ (processBlocks blocks initWorkletState).posted,
      c.length = CHUNK_SIZE ∧ ∀ v ∈ c, -32768 ≤ v ∧ v ≤ 32767 := by
  obtain ⟨h1, h2, _, h4⟩ :=
    workletInv_processBlocks blocks initWorkletState workletInv_init
  exact ⟨h1, h2, h4⟩
